import Mathlib

/-!
Verification of the `energy_signal` crate (signal-marking protocol).

The Rust source (src/energy_signal/src/signals.rs, src/energy_signal/src/lib.rs)
is shallowly embedded below:

* the process-wide state (`Once` handler latch, `Lazy<usize>` iteration budget
  cache, `AtomicUsize` iteration counter) becomes the structure `SigState`,
  passed explicitly;
* raising an OS signal and installing signal handlers become emitted `Event`s
  collected in a trace list;
* the environment (`env::var("ITERATIONS")`) is an `Option String` parameter;
* `usize` arithmetic is `Nat` with explicit reduction modulo `2 ^ 64`
  (`AtomicUsize::fetch_add` wraps on the 64-bit supported targets);
* fallible OS calls (`sigaction`, `raise`), which the source `.unwrap()`s,
  are modelled in a second, `Except`-valued semantics where a panic is an
  `Except.error`; the plain semantics is the all-calls-succeed run of it.

A fine-grained interleaving model (`CState`, `threadStep`, `crun`) embeds the
concurrent execution of `start_signal` by several threads, each shared-memory
access (`Once` entry, `fetch_add`, `Lazy` force) being one atomic step.
-/

namespace EnergyBench

/-- `usize::MAX + 1` on the supported 64-bit targets: counter arithmetic
(`AtomicUsize::fetch_add`) wraps modulo this. -/
def USIZE_MOD : Nat := 2 ^ 64

/-- Observable side effects of the crate: the one-time `sigaction`
installation of the no-op handlers (for SIGUSR1 and SIGUSR2 together), and
the self-directed raises of SIGUSR1 ("begin") and SIGUSR2 ("end"). -/
inductive Event where
  | installHandlers : Event
  | raiseBegin : Event
  | raiseEnd : Event
deriving DecidableEq, Repr

/-- The process-wide state of signals.rs: `HANDLER_INIT : Once` (has the
one-time block run?), `ITERATIONS : Lazy<usize>` (its cache: `none` before the
first force), `ITERATION_COUNT : AtomicUsize`. -/
structure SigState where
  handlersInstalled : Bool
  iterations : Option Nat
  count : Nat
deriving DecidableEq, Repr

/-- State at process start: latch open, budget unread, counter 0. -/
def initState : SigState := ⟨false, none, 0⟩

/-- Rust's `str::parse::<usize>`: optional leading `+`, then one or more ASCII
digits, value below `2 ^ 64`; anything else is a parse error. (Written over
the character list of the string.) -/
def parseUsize (s : String) : Option Nat :=
  let t := match s.data with
    | '+' :: rest => rest
    | cs => cs
  if t.isEmpty then none
  else if t.all Char.isDigit then
    let n := t.foldl (fun acc c => acc * 10 + (c.toNat - '0'.toNat)) 0
    if n < USIZE_MOD then some n else none
  else none

/-- The initializer of `ITERATIONS`: `env::var("ITERATIONS").ok()
.and_then(parse).unwrap_or(1)`. `env = none` models an absent variable. -/
def iterationsOf (env : Option String) : Nat :=
  ((env.bind parseUsize).getD 1)

/-- Dereferencing `*ITERATIONS` (forcing the `Lazy`): returns the cached
value if present, otherwise runs the initializer and caches its result. -/
def getIterations (env : Option String) (s : SigState) : Nat × SigState :=
  match s.iterations with
  | some n => (n, s)
  | none => (iterationsOf env, { s with iterations := some (iterationsOf env) })

/-- The budget value a call in state `s` under environment `env` would use:
the cached value, or what the initializer would produce. -/
def effectiveN (env : Option String) (s : SigState) : Nat :=
  s.iterations.getD (iterationsOf env)

/-- `init_signal_handler`: `HANDLER_INIT.call_once(|| sigaction(SIGUSR1);
sigaction(SIGUSR2))` — installs the two no-op dispositions the first time,
does nothing after. -/
def init_signal_handler (s : SigState) : SigState × List Event :=
  if s.handlersInstalled then (s, [])
  else ({ s with handlersInstalled := true }, [Event.installHandlers])

namespace signals

/-- `signals::start_signal`: install handlers, `fetch_add(1, SeqCst)` on the
counter capturing the pre-increment value `curr`, then raise SIGUSR1 and
return 1 if `curr < *ITERATIONS`, else return 0. -/
def start_signal (env : Option String) (s : SigState) :
    Int × SigState × List Event :=
  let p0 := init_signal_handler s
  let curr := p0.1.count
  let s1 := { p0.1 with count := (curr + 1) % USIZE_MOD }
  let p2 := getIterations env s1
  if curr < p2.1 then (1, p2.2, p0.2 ++ [Event.raiseBegin])
  else (0, p2.2, p0.2)

/-- `signals::stop_signal`: install handlers, `load(SeqCst)` the counter, and
raise SIGUSR2 if `curr > 0 && curr <= *ITERATIONS` (the `&&` is
short-circuit: `*ITERATIONS` is only forced when `curr > 0`). -/
def stop_signal (env : Option String) (s : SigState) : SigState × List Event :=
  let p0 := init_signal_handler s
  let curr := p0.1.count
  if 0 < curr then
    let p1 := getIterations env p0.1
    if curr ≤ p1.1 then (p1.2, p0.2 ++ [Event.raiseEnd]) else (p1.2, p0.2)
  else (p0.1, p0.2)

end signals

/-- A call into the crate, tagged with the environment visible to it (the
environment may change between calls; the `Lazy` cache insulates against
that after the first read). -/
inductive Op where
  | start : Option String → Op
  | stop : Option String → Op
deriving DecidableEq, Repr

/-- Execute one call, keeping the state and the emitted events. -/
def runOp : Op → SigState → SigState × List Event
  | Op.start env, s =>
      let r := signals.start_signal env s
      (r.2.1, r.2.2)
  | Op.stop env, s => signals.stop_signal env s

/-- Execute a sequence of calls; the event trace is the concatenation of the
calls' events, in order. -/
def run : List Op → SigState → SigState × List Event
  | [], s => (s, [])
  | op :: ops, s =>
      let p := runOp op s
      let q := run ops p.1
      (q.1, p.2 ++ q.2)

/-- `m` consecutive `start_signal` calls under a fixed environment. -/
def starts (env : Option String) (m : Nat) : List Op :=
  List.replicate m (Op.start env)

/-- `n` consecutive `stop_signal` calls under a fixed environment. -/
def stops (env : Option String) (n : Nat) : List Op :=
  List.replicate n (Op.stop env)

/-- The value the `k`-th (1-indexed) `start_signal` call returns when the
process makes only `start_signal` calls under environment `env`. -/
def kthStartRet (env : Option String) (k : Nat) : Int :=
  (signals.start_signal env (run (starts env (k - 1)) initState).1).1

/-! ### Fallible OS calls

The source `.unwrap()`s the results of `sigaction` and `raise`; a failure
panics and terminates the caller. `start_signalE` / `stop_signalE` model the
calls with the OS outcomes made explicit: `Except.error ()` is the
propagated panic. The plain semantics above is the all-calls-succeed run. -/

/-- Outcomes the OS gives to this process's `sigaction` calls (both
installations together) and to its self-directed `raise` calls. -/
structure OSBehavior where
  sigactionOk : Bool
  raiseOk : Bool
deriving DecidableEq, Repr

/-- `init_signal_handler` with fallible `sigaction`: inside the `Once`
block a failed `sigaction(...).unwrap()` panics. -/
def init_signal_handlerE (os : OSBehavior) (s : SigState) :
    Except Unit (SigState × List Event) :=
  if s.handlersInstalled then Except.ok (s, [])
  else if os.sigactionOk then
    Except.ok ({ s with handlersInstalled := true }, [Event.installHandlers])
  else Except.error ()

/-- `raise(...)` with its OS outcome; `.unwrap()` panics on failure. -/
def raiseE (os : OSBehavior) : Except Unit Unit :=
  if os.raiseOk then Except.ok () else Except.error ()

/-- `start_signal` with fallible OS calls; an `Except.error` is the panic
of an `.unwrap()`, which terminates the caller uncaught. -/
def start_signalE (os : OSBehavior) (env : Option String) (s : SigState) :
    Except Unit (Int × SigState × List Event) := do
  let p0 ← init_signal_handlerE os s
  let curr := p0.1.count
  let s1 := { p0.1 with count := (curr + 1) % USIZE_MOD }
  let p2 := getIterations env s1
  if curr < p2.1 then do
    let _ ← raiseE os
    Except.ok (1, p2.2, p0.2 ++ [Event.raiseBegin])
  else Except.ok (0, p2.2, p0.2)

/-- `stop_signal` with fallible OS calls. -/
def stop_signalE (os : OSBehavior) (env : Option String) (s : SigState) :
    Except Unit (SigState × List Event) := do
  let p0 ← init_signal_handlerE os s
  let curr := p0.1.count
  if 0 < curr then
    let p1 := getIterations env p0.1
    if curr ≤ p1.1 then do
      let _ ← raiseE os
      Except.ok (p1.2, p0.2 ++ [Event.raiseEnd])
    else Except.ok (p1.2, p0.2)
  else Except.ok (p0.1, p0.2)

/-! ### lib.rs: C entry points and the JNI bridge -/

/-- lib.rs `#[no_mangle] pub extern "C" fn start_signal`: forwards to
`signals::start_signal`. -/
def start_signal (env : Option String) (s : SigState) :
    Int × SigState × List Event :=
  signals.start_signal env s

/-- lib.rs `#[no_mangle] pub extern "C" fn stop_signal`: forwards to
`signals::stop_signal`. -/
def stop_signal (env : Option String) (s : SigState) : SigState × List Event :=
  signals.stop_signal env s

namespace jni

/-- lib.rs `Java_EnergySignal_startSignal(_env: JNIEnv, _class: JClass) ->
jint`: ignores both JNI arguments (modelled as `Unit`) and forwards to
`signals::start_signal`. -/
def Java_EnergySignal_startSignal (_jnienv : Unit) (_class : Unit)
    (env : Option String) (s : SigState) : Int × SigState × List Event :=
  signals.start_signal env s

/-- lib.rs `Java_EnergySignal_stopSignal(_env: JNIEnv, _class: JClass)`:
ignores both JNI arguments and forwards to `signals::stop_signal`. -/
def Java_EnergySignal_stopSignal (_jnienv : Unit) (_class : Unit)
    (env : Option String) (s : SigState) : SigState × List Event :=
  signals.stop_signal env s

end jni

/-! ### Fine-grained concurrent executions of `start_signal`

Several threads each call `start_signal` once. The only shared-memory
accesses of a call are the `Once` entry, the `fetch_add(1, SeqCst)`, and the
`Lazy` force in the comparison; each is one atomic step, so a thread's call
is three atomic steps interleaved arbitrarily with the other threads'. -/

/-- Thread-local state of one thread running `start_signal` once: `pc` is
its progress (0 = before the `Once` entry, 1 = before the `fetch_add`,
2 = before the budget force/comparison, 3 = returned), `curr` the
pre-increment counter value captured by its `fetch_add` (valid once
`pc ≥ 2`), `ret` its return value (valid once `pc = 3`). -/
structure TLocal where
  pc : Nat
  curr : Nat
  ret : Int
deriving DecidableEq, Repr

/-- State of a concurrent execution: shared `SigState`, the thread-local
states, and the events emitted so far (in order). -/
structure CState where
  shared : SigState
  threads : Nat → TLocal
  events : List Event

/-- Process start: fresh shared state, every thread before its call. -/
def mkCState : CState := ⟨initState, fun _ => ⟨0, 0, 0⟩, []⟩

/-- One atomic step of thread `i`: its next shared-memory access. A thread
with `pc = 3` has returned; stepping it does nothing. -/
def threadStep (env : Option String) (st : CState) (i : Nat) : CState :=
  let t := st.threads i
  match t.pc with
  | 0 =>
      let p := init_signal_handler st.shared
      ⟨p.1, Function.update st.threads i { t with pc := 1 }, st.events ++ p.2⟩
  | 1 =>
      let c := st.shared.count
      ⟨{ st.shared with count := (c + 1) % USIZE_MOD },
       Function.update st.threads i { t with pc := 2, curr := c }, st.events⟩
  | 2 =>
      let p := getIterations env st.shared
      if t.curr < p.1 then
        ⟨p.2, Function.update st.threads i { t with pc := 3, ret := 1 },
         st.events ++ [Event.raiseBegin]⟩
      else
        ⟨p.2, Function.update st.threads i { t with pc := 3, ret := 0 },
         st.events⟩
  | _ => st

/-- Run a schedule: the interleaving is the list of thread ids, each entry
being one atomic step of that thread. -/
def crun (env : Option String) (sched : List Nat) (st : CState) : CState :=
  sched.foldl (threadStep env) st

/-- The schedule running threads `0, …, T-1` to completion one after the
other (one valid interleaving). -/
def seqSched : Nat → List Nat
  | 0 => []
  | T + 1 => seqSched T ++ [T, T, T]

/-- How many of the threads `0, …, T-1` have executed their `fetch_add`. -/
def fetchedCount (st : CState) (T : Nat) : Nat :=
  (List.range T).countP (fun i => decide (2 ≤ (st.threads i).pc))

/-- How many of the threads `0, …, T-1` have returned after raising the
begin signal (their `curr` passed the budget comparison). -/
def raisersCount (st : CState) (T N : Nat) : Nat :=
  (List.range T).countP
    (fun i => decide ((st.threads i).pc = 3 ∧ (st.threads i).curr < N))

/-- Invariant of every reachable state of a `T`-thread execution under
environment `env` (`T < 2 ^ 64`): counter = number of `fetch_add`s done,
captured `curr`s are distinct slots below that number, the budget cache
holds nothing or the initializer's value, the begin raises are exactly the
returned threads whose slot passed the comparison, the latch is set as soon
as any thread passed the `Once`, no event precedes the installation, and
the installation event appears exactly once the latch is set. -/
def CInv (env : Option String) (T : Nat) (st : CState) : Prop :=
  st.shared.count = fetchedCount st T ∧
  (∀ i, i < T → 2 ≤ (st.threads i).pc → (st.threads i).curr < fetchedCount st T) ∧
  (∀ i j, i < T → j < T → i ≠ j → 2 ≤ (st.threads i).pc →
    2 ≤ (st.threads j).pc → (st.threads i).curr ≠ (st.threads j).curr) ∧
  (st.shared.iterations = none ∨ st.shared.iterations = some (iterationsOf env)) ∧
  st.events.count Event.raiseBegin = raisersCount st T (iterationsOf env) ∧
  (∀ i, i < T → (st.threads i).pc ≤ 3) ∧
  (∀ i, i < T → 1 ≤ (st.threads i).pc → st.shared.handlersInstalled = true) ∧
  (st.shared.handlersInstalled = false → st.events = []) ∧
  (st.events = [] ∨ st.events.head? = some Event.installHandlers) ∧
  st.events.count Event.installHandlers =
    (if st.shared.handlersInstalled then 1 else 0)

-- Spec §8 Scenario 1, N = 1 (default): returns 1 then 0; the begin signal is
-- raised on the first call only.
example : kthStartRet none 1 = 1 := by decide
example : kthStartRet none 2 = 0 := by decide

-- Spec §8 Scenario 3, N parsed as 0: the first call returns 0.
example : kthStartRet (some "0") 1 = 0 := by decide

-- Spec §8 Scenario 2, N = 3: calls 1-3 return 1, call 4 returns 0.
example : kthStartRet (some "3") 3 = 1 := by decide
example : kthStartRet (some "3") 4 = 0 := by decide

-- A genuinely interleaved execution of three threads with budget 2: final
-- counter 3, two begin signals.
example :
    (crun (some "2") [0, 1, 2, 0, 1, 2, 0, 1, 2] mkCState).shared.count = 3 := by
  decide
example :
    (crun (some "2") [0, 1, 2, 0, 1, 2, 0, 1, 2] mkCState).events.count
      Event.raiseBegin = 2 := by decide

/-! ### Normal forms of the two calls -/

/-- Normal form of one `start_signal` call: return code decided by
`curr < N`, handlers installed, budget cached, counter bumped modulo
`2 ^ 64`, and the events actually emitted. -/
theorem start_signal_eq (env : Option String) (s : SigState) :
    signals.start_signal env s =
      (if s.count < effectiveN env s then 1 else 0,
       ⟨true, some (effectiveN env s), (s.count + 1) % USIZE_MOD⟩,
       (if s.handlersInstalled then [] else [Event.installHandlers]) ++
         if s.count < effectiveN env s then [Event.raiseBegin] else []) := by
  obtain ⟨hi, it, c⟩ := s
  cases hi <;> cases it <;>
    simp only [signals.start_signal, init_signal_handler, getIterations,
      effectiveN, Option.getD] <;>
    split <;> simp_all <;> split <;> rfl

/-- Normal form of one `stop_signal` call: counter untouched, handlers
installed, budget cached only when `0 < curr` (`&&` short-circuit), the end
signal raised exactly when `0 < curr ≤ N`. -/
theorem stop_signal_eq (env : Option String) (s : SigState) :
    signals.stop_signal env s =
      (⟨true, if 0 < s.count then some (effectiveN env s) else s.iterations,
          s.count⟩,
       (if s.handlersInstalled then [] else [Event.installHandlers]) ++
         if 0 < s.count ∧ s.count ≤ effectiveN env s then [Event.raiseEnd]
         else []) := by
  obtain ⟨hi, it, c⟩ := s
  cases hi <;> cases it <;>
    simp only [signals.stop_signal, init_signal_handler, getIterations,
      effectiveN, Option.getD] <;>
    rcases Nat.eq_zero_or_pos c with hc | hc <;>
    subst_eqs <;> simp_all <;> split <;> simp_all

/-! ### Sequential-run helper lemmas -/

theorem USIZE_MOD_pos : 0 < USIZE_MOD := by norm_num [USIZE_MOD]

theorem initState_count_lt : initState.count < USIZE_MOD := USIZE_MOD_pos

theorem run_cons (op : Op) (ops : List Op) (s : SigState) :
    run (op :: ops) s =
      ((run ops (runOp op s).1).1,
        (runOp op s).2 ++ (run ops (runOp op s).1).2) := rfl

theorem run_append (l1 l2 : List Op) : ∀ s : SigState,
    run (l1 ++ l2) s =
      ((run l2 (run l1 s).1).1,
        (run l1 s).2 ++ (run l2 (run l1 s).1).2) := by
  induction l1 with
  | nil => intro s; simp [run]
  | cons op ops ih =>
      intro s
      simp [List.cons_append, run_cons, ih, List.append_assoc]

theorem runOp_start_state (env : Option String) (s : SigState) :
    (runOp (Op.start env) s).1 =
      ⟨true, some (effectiveN env s), (s.count + 1) % USIZE_MOD⟩ := by
  simp [runOp, start_signal_eq]

/-- State after `m + 1` consecutive start calls: handlers installed, budget
cached, counter advanced modulo `2 ^ 64`. -/
theorem run_starts_succ (env : Option String) : ∀ (m : Nat) (s : SigState),
    (run (starts env (m + 1)) s).1 =
      ⟨true, some (effectiveN env s), (s.count + (m + 1)) % USIZE_MOD⟩ := by
  intro m
  induction m with
  | zero =>
      intro s
      show (run [Op.start env] s).1 = _
      simp [run, runOp_start_state]
  | succ m ih =>
      intro s
      have hcons : starts env (m + 1 + 1) = Op.start env :: starts env (m + 1) :=
        rfl
      rw [hcons, run_cons, runOp_start_state, ih]
      have he : effectiveN env
          (⟨true, some (effectiveN env s), (s.count + 1) % USIZE_MOD⟩ :
            SigState) = effectiveN env s := rfl
      rw [he]
      have hm : ((s.count + 1) % USIZE_MOD + (m + 1)) % USIZE_MOD =
          (s.count + (m + 1 + 1)) % USIZE_MOD := by
        rw [Nat.mod_add_mod]
        ring_nf
      simp [hm]

/-- Counter after `m` consecutive start calls. -/
theorem run_starts_count (env : Option String) (m : Nat) (s : SigState)
    (hs : s.count < USIZE_MOD) :
    (run (starts env m) s).1.count = (s.count + m) % USIZE_MOD := by
  cases m with
  | zero => simpa [starts, run] using (Nat.mod_eq_of_lt hs).symm
  | succ m => rw [run_starts_succ]

/-- The budget any start call keeps using. -/
theorem run_starts_effectiveN (env : Option String) (m : Nat) (s : SigState) :
    effectiveN env (run (starts env m) s).1 = effectiveN env s := by
  cases m with
  | zero => rfl
  | succ m => rw [run_starts_succ]; rfl

/-- With a zero budget no start call ever raises the begin signal. -/
theorem raiseBegin_not_mem_run_starts (env : Option String) :
    ∀ (m : Nat) (s : SigState), effectiveN env s = 0 →
      Event.raiseBegin ∉ (run (starts env m) s).2 := by
  intro m
  induction m with
  | zero => intro s _; simp [starts, run]
  | succ m ih =>
      intro s h0
      have hcons : starts env (m + 1) = Op.start env :: starts env m := rfl
      rw [hcons, run_cons]
      intro hmem
      rcases List.mem_append.mp hmem with hmem | hmem
      · revert hmem
        simp [runOp, start_signal_eq, h0]
      · exact ih (runOp (Op.start env) s).1
          (by rw [runOp_start_state, h0]; rfl) hmem

/-- A start call returns 0 or 1, and returns 1 exactly when it raises the
begin signal. -/
theorem start_ret_raise (env : Option String) (s : SigState) :
    ((signals.start_signal env s).1 = 0 ∨ (signals.start_signal env s).1 = 1) ∧
    ((signals.start_signal env s).1 = 1 ↔
      Event.raiseBegin ∈ (signals.start_signal env s).2.2) := by
  rw [start_signal_eq]
  cases hI : s.handlersInstalled <;>
    by_cases h : s.count < effectiveN env s <;> simp [h]

/-- State, budget, and end-raise count over `n` consecutive stop calls from
a state with `0 < count ≤ N`. -/
theorem run_stops_facts (env : Option String) : ∀ (n : Nat) (s : SigState),
    0 < s.count → s.count ≤ effectiveN env s →
    (run (stops env n) s).1.count = s.count ∧
    effectiveN env (run (stops env n) s).1 = effectiveN env s ∧
    (run (stops env n) s).2.count Event.raiseEnd = n := by
  intro n
  induction n with
  | zero => intro s _ _; exact ⟨rfl, rfl, rfl⟩
  | succ n ih =>
      intro s h1 h2
      have hcons : stops env (n + 1) = Op.stop env :: stops env n := rfl
      rw [hcons, run_cons]
      have hop : runOp (Op.stop env) s =
          (⟨true, some (effectiveN env s), s.count⟩,
           (if s.handlersInstalled then [] else [Event.installHandlers]) ++
             [Event.raiseEnd]) := by
        rw [runOp, stop_signal_eq, if_pos h1, if_pos (And.intro h1 h2)]
      rw [hop]
      have he : effectiveN env
          (⟨true, some (effectiveN env s), s.count⟩ : SigState) =
          effectiveN env s := rfl
      obtain ⟨ih1, ih2, ih3⟩ :=
        ih ⟨true, some (effectiveN env s), s.count⟩ h1 (by rw [he]; exact h2)
      refine ⟨ih1, by rw [ih2, he], ?_⟩
      rw [List.count_append, ih3, List.count_append]
      cases s.handlersInstalled <;> simp [List.count_cons] <;> omega

/-! ### C1 -/

/-- C1 counterexample: with the default budget N = 1 (ITERATIONS absent),
the start call made after 2^64 earlier start calls — the (2^64 + 1)-th
call, whose index exceeds N — still returns 1, and after m = 2^64 start
calls the counter is 0, not m: the claim fails once the wrapping counter
has gone round. -/
theorem C1_counterexample :
    iterationsOf none = 1 ∧
    (signals.start_signal none (run (starts none USIZE_MOD) initState).1).1
      = 1 ∧
    (run (starts none USIZE_MOD) initState).1.count ≠ USIZE_MOD := by
  have hst : (run (starts none USIZE_MOD) initState).1 =
      ⟨true, some 1, 0⟩ := by
    have h1 : USIZE_MOD = (USIZE_MOD - 1) + 1 := by norm_num [USIZE_MOD]
    rw [h1, run_starts_succ]
    norm_num [initState, USIZE_MOD]
    rfl
  refine ⟨rfl, ?_, ?_⟩
  · rw [hst, start_signal_eq]
    norm_num [effectiveN]
  · rw [hst]
    norm_num [USIZE_MOD]

/-- C1 (amended: the calls are counted below the wrap at 2^64, which the
64-bit counter forces): under budget N, the k-th start call (1-indexed,
k ≤ 2^64) returns 1 iff k ≤ N; a start call raises the begin signal iff it
returns 1; after m < 2^64 start calls the counter equals m; every return
value is 0 or 1; and with N = 0 every call returns 0 and no begin signal is
ever raised. -/
theorem C1_start_budget (env : Option String) (k m : Nat) :
    (1 ≤ k → k ≤ USIZE_MOD →
      kthStartRet env k = if k ≤ iterationsOf env then 1 else 0) ∧
    (m < USIZE_MOD → (run (starts env m) initState).1.count = m) ∧
    (kthStartRet env k = 0 ∨ kthStartRet env k = 1) ∧
    (kthStartRet env k = 1 ↔
      Event.raiseBegin ∈
        (signals.start_signal env (run (starts env (k - 1)) initState).1).2.2) ∧
    (iterationsOf env = 0 →
      kthStartRet env k = 0 ∧
      Event.raiseBegin ∉ (run (starts env m) initState).2) := by
  have hN : effectiveN env (run (starts env (k - 1)) initState).1 =
      iterationsOf env := by
    rw [run_starts_effectiveN]; rfl
  have hc : (run (starts env (k - 1)) initState).1.count =
      (k - 1) % USIZE_MOD := by
    simpa [initState] using
      run_starts_count env (k - 1) initState initState_count_lt
  refine ⟨?_, ?_, (start_ret_raise env _).1, (start_ret_raise env _).2, ?_⟩
  · intro h1 hk
    unfold kthStartRet
    rw [start_signal_eq, hN, hc, Nat.mod_eq_of_lt (by omega)]
    by_cases hle : k ≤ iterationsOf env
    · rw [if_pos (by omega), if_pos hle]
    · rw [if_neg (by omega), if_neg hle]
  · intro hm
    rw [run_starts_count env m initState initState_count_lt]
    show (0 + m) % USIZE_MOD = m
    rw [Nat.zero_add, Nat.mod_eq_of_lt hm]
  · intro h0
    constructor
    · unfold kthStartRet
      rw [start_signal_eq, hN, h0]
      simp
    · exact raiseBegin_not_mem_run_starts env m initState
        (by show effectiveN env initState = 0; rw [show effectiveN env initState = iterationsOf env from rfl, h0])

/-- Closed instance of `C1_start_budget`: budget 3, third call returns 1,
fourth returns 0, counter after four calls is 4. -/
theorem C1_start_budget_witness :
    kthStartRet (some "3") 3 = 1 ∧ kthStartRet (some "3") 4 = 0 ∧
    (run (starts (some "3") 4) initState).1.count = 4 := by
  have h3 := (C1_start_budget (some "3") 3 4).1 (by norm_num)
    (by norm_num [USIZE_MOD])
  have h4 := (C1_start_budget (some "3") 4 4).1 (by norm_num)
    (by norm_num [USIZE_MOD])
  have hc := (C1_start_budget (some "3") 4 4).2.1 (by norm_num [USIZE_MOD])
  refine ⟨?_, ?_, hc⟩
  · rw [h3, if_pos (by decide)]
  · rw [h4, if_neg (by decide)]

/-! ### C2 -/

/-- C2: `stop_signal` keeps the counter unchanged and raises the end signal
iff `0 < curr ≤ N`; for `curr = 0` and for `curr > N` it raises nothing. -/
theorem C2_stop_decision (env : Option String) (s : SigState) :
    (signals.stop_signal env s).1.count = s.count ∧
    (Event.raiseEnd ∈ (signals.stop_signal env s).2 ↔
      0 < s.count ∧ s.count ≤ effectiveN env s) := by
  rw [stop_signal_eq]
  refine ⟨rfl, ?_⟩
  cases hI : s.handlersInstalled <;>
    by_cases h : 0 < s.count ∧ s.count ≤ effectiveN env s <;> simp [h]

/-! ### C5 -/

/-- C5 counterexample: the 2^64-th start call wraps the counter from
2^64 - 1 down to 0 — the counter strictly decreases across that call, so it
is not non-decreasing over the process lifetime and that call does not
increment it by 1. -/
theorem C5_counterexample :
    (run (starts none USIZE_MOD) initState).1.count <
      (run (starts none (USIZE_MOD - 1)) initState).1.count := by
  have h2 : (run (starts none (USIZE_MOD - 1)) initState).1.count =
      USIZE_MOD - 1 := by
    rw [run_starts_count none _ _ initState_count_lt]
    show (0 + (USIZE_MOD - 1)) % USIZE_MOD = USIZE_MOD - 1
    rw [Nat.zero_add, Nat.mod_eq_of_lt (by norm_num [USIZE_MOD])]
  have h1 : (run (starts none USIZE_MOD) initState).1.count = 0 := by
    rw [run_starts_count none _ _ initState_count_lt]
    show (0 + USIZE_MOD) % USIZE_MOD = 0
    rw [Nat.zero_add, Nat.mod_self]
  rw [h1, h2]
  norm_num [USIZE_MOD]

/-- C5 (amended: modulo the 64-bit wrap): the counter starts at 0,
`stop_signal` never modifies it, and each `start_signal` call sets it to
`(count + 1) % 2^64` — an increment by exactly 1, and in particular
non-decreasing, whenever `count + 1 < 2^64`. -/
theorem C5_counter_monotone (env : Option String) (s : SigState) :
    initState.count = 0 ∧
    (signals.stop_signal env s).1.count = s.count ∧
    (signals.start_signal env s).2.1.count = (s.count + 1) % USIZE_MOD ∧
    (s.count + 1 < USIZE_MOD →
      (signals.start_signal env s).2.1.count = s.count + 1) := by
  refine ⟨rfl, ?_, ?_, ?_⟩
  · rw [stop_signal_eq]
  · rw [start_signal_eq]
  · intro h
    rw [start_signal_eq]
    show (s.count + 1) % USIZE_MOD = s.count + 1
    exact Nat.mod_eq_of_lt h

/-- Closed instance of `C5_counter_monotone`: a start call at counter 5
moves it to 6. -/
theorem C5_counter_monotone_witness :
    (signals.start_signal none ⟨true, some 1, 5⟩).2.1.count = 5 + 1 :=
  (C5_counter_monotone none ⟨true, some 1, 5⟩).2.2.2 (by norm_num [USIZE_MOD])

/-! ### C9 -/

/-- C9: `stop_signal` is frame-preserving — it never changes the counter or
the budget in effect, keeps the latch set once installed and the cached
budget cached — and carries no pairing state: from any state with
`0 < count ≤ N`, each of `n` consecutive stop calls (no start between)
raises the end signal, yielding `n` end markers. -/
theorem C9_stop_frame (env : Option String) (s : SigState) (n : Nat) :
    (signals.stop_signal env s).1.count = s.count ∧
    effectiveN env (signals.stop_signal env s).1 = effectiveN env s ∧
    (s.handlersInstalled = true →
      (signals.stop_signal env s).1.handlersInstalled = true) ∧
    (∀ v, s.iterations = some v →
      (signals.stop_signal env s).1.iterations = some v) ∧
    (0 < s.count → s.count ≤ effectiveN env s →
      (run (stops env n) s).1.count = s.count ∧
      (run (stops env n) s).2.count Event.raiseEnd = n) := by
  refine ⟨by rw [stop_signal_eq], ?_, ?_, ?_, ?_⟩
  · rw [stop_signal_eq]
    rcases Nat.eq_zero_or_pos s.count with hc | hc
    · simp [effectiveN, hc]
    · simp [effectiveN, hc]
  · intro _
    rw [stop_signal_eq]
  · intro v hv
    rw [stop_signal_eq]
    rcases Nat.eq_zero_or_pos s.count with hc | hc
    · simp [hc, hv]
    · simp [hc, effectiveN, hv]
  · intro h1 h2
    obtain ⟨ha, _, hb⟩ := run_stops_facts env n s h1 h2
    exact ⟨ha, hb⟩

/-- Closed instance of `C9_stop_frame`: three consecutive stop calls at
counter 1 with budget 2 keep the counter at 1 and raise three end
signals. -/
theorem C9_stop_frame_witness :
    (run (stops none 3) ⟨true, some 2, 1⟩).1.count = 1 ∧
    (run (stops none 3) ⟨true, some 2, 1⟩).2.count Event.raiseEnd = 3 :=
  (C9_stop_frame none ⟨true, some 2, 1⟩ 3).2.2.2.2 (by norm_num)
    (by norm_num [effectiveN])

/-! ### C10 -/

/-- C10: the counter is a 64-bit wrapping counter — after `m` start calls
it equals `m % 2^64`; in particular after 2^64 calls it has wrapped to 0,
and with any budget N ≥ 1 the next start call again returns 1 and raises
the begin signal. -/
theorem C10_counter_wraps (env : Option String) (m : Nat) :
    (run (starts env m) initState).1.count = m % USIZE_MOD ∧
    (1 ≤ iterationsOf env →
      (signals.start_signal env (run (starts env USIZE_MOD) initState).1).1
          = 1 ∧
      Event.raiseBegin ∈
        (signals.start_signal env
          (run (starts env USIZE_MOD) initState).1).2.2) := by
  have hwrap : (run (starts env USIZE_MOD) initState).1 =
      ⟨true, some (iterationsOf env), 0⟩ := by
    have h1 : USIZE_MOD = (USIZE_MOD - 1) + 1 := by norm_num [USIZE_MOD]
    rw [h1, run_starts_succ]
    have h2 : (initState.count + (USIZE_MOD - 1 + 1)) % USIZE_MOD = 0 := by
      show (0 + (USIZE_MOD - 1 + 1)) % USIZE_MOD = 0
      norm_num [USIZE_MOD]
    rw [h2]
    rfl
  constructor
  · rw [run_starts_count env m initState initState_count_lt]
    show (0 + m) % USIZE_MOD = m % USIZE_MOD
    rw [Nat.zero_add]
  · intro hN
    rw [hwrap, start_signal_eq]
    have hc : ((⟨true, some (iterationsOf env), 0⟩ : SigState).count <
        effectiveN env ⟨true, some (iterationsOf env), 0⟩) := hN
    simp [hc]

/-- Closed instance of `C10_counter_wraps`: with ITERATIONS absent
(N = 1 ≥ 1) the call after the wrap returns 1 again. -/
theorem C10_counter_wraps_witness :
    (signals.start_signal none (run (starts none USIZE_MOD) initState).1).1
      = 1 :=
  ((C10_counter_wraps none 0).2 (by norm_num [iterationsOf])).1

/-! ### C4 -/

/-- C4: the budget N parses "ITERATIONS" as an unsigned integer with
fallback 1 when absent or unparsable; it is computed and cached on the
first forcing call, and once cached it is immutable — any later call, under
any later environment, keeps and uses the cached value. -/
theorem C4_iterations_budget (env env2 : Option String) (s : SigState)
    (t : String) (n v : Nat) :
    iterationsOf none = 1 ∧
    (parseUsize t = none → iterationsOf (some t) = 1) ∧
    (parseUsize t = some n → iterationsOf (some t) = n) ∧
    (s.iterations = none →
      (signals.start_signal env s).2.1.iterations =
        some (iterationsOf env)) ∧
    (s.iterations = some v →
      (signals.start_signal env2 s).1 = (if s.count < v then 1 else 0) ∧
      (signals.start_signal env2 s).2.1.iterations = some v ∧
      (signals.stop_signal env2 s).1.iterations = some v) := by
  refine ⟨rfl, ?_, ?_, ?_, ?_⟩
  · intro h; simp [iterationsOf, h]
  · intro h; simp [iterationsOf, h]
  · intro h
    rw [start_signal_eq]
    simp [effectiveN, h]
  · intro h
    have he : effectiveN env2 s = v := by simp [effectiveN, h]
    refine ⟨?_, ?_, ?_⟩
    · rw [start_signal_eq, he]
    · rw [start_signal_eq, he]
    · rw [stop_signal_eq]
      rcases Nat.eq_zero_or_pos s.count with hc | hc
      · simp [hc, h]
      · simp [hc, he]

/-- Closed instance of `C4_iterations_budget`: "abc" is unparsable (N = 1),
"42" parses to 42, and a cached budget of 3 is used and kept by a later
call that sees ITERATIONS = "7". -/
theorem C4_iterations_budget_witness :
    iterationsOf (some "abc") = 1 ∧
    iterationsOf (some "42") = 42 ∧
    (signals.start_signal (some "7") ⟨true, some 3, 5⟩).1 = 0 ∧
    (signals.start_signal (some "7") ⟨true, some 3, 5⟩).2.1.iterations =
      some 3 := by
  have ha := C4_iterations_budget none none ⟨true, some 3, 5⟩ "abc" 0 3
  have hb := C4_iterations_budget (some "7") (some "7") ⟨true, some 3, 5⟩
    "42" 42 3
  refine ⟨ha.2.1 (by decide), hb.2.2.1 (by decide), ?_, ?_⟩
  · have h := (hb.2.2.2.2 rfl).1
    rw [h, if_neg (by norm_num)]
  · exact (hb.2.2.2.2 rfl).2.1

/-! ### C3 -/

/-- Once the latch is set no later call emits another installation, and the
latch stays set. -/
theorem no_install_of_installed : ∀ (ops : List Op) (s : SigState),
    s.handlersInstalled = true →
    Event.installHandlers ∉ (run ops s).2 ∧
    (run ops s).1.handlersInstalled = true := by
  intro ops
  induction ops with
  | nil => intro s h; exact ⟨by simp [run], h⟩
  | cons op rest ih =>
      intro s h
      rw [run_cons]
      have h1 : (runOp op s).1.handlersInstalled = true := by
        cases op <;> simp [runOp, start_signal_eq, stop_signal_eq]
      have h2 : Event.installHandlers ∉ (runOp op s).2 := by
        cases op <;>
          simp only [runOp, start_signal_eq, stop_signal_eq, h, if_true] <;>
          split <;> simp
      obtain ⟨ih1, ih2⟩ := ih (runOp op s).1 h1
      refine ⟨?_, ih2⟩
      intro hmem
      rcases List.mem_append.mp hmem with hm | hm
      · exact h2 hm
      · exact ih1 hm

/-- From an uninstalled state, any call's first event is the installation,
which it emits exactly once, and it leaves the latch set. -/
theorem runOp_head_install (op : Op) (s : SigState)
    (h : s.handlersInstalled = false) :
    ∃ t : List Event, (runOp op s).2 = Event.installHandlers :: t ∧
      Event.installHandlers ∉ t ∧ (runOp op s).1.handlersInstalled = true := by
  cases op with
  | start env =>
      refine ⟨if s.count < effectiveN env s then [Event.raiseBegin] else [],
        ?_, ?_, ?_⟩
      · simp [runOp, start_signal_eq, h]
      · split <;> simp
      · simp [runOp, start_signal_eq]
  | stop env =>
      refine ⟨if 0 < s.count ∧ s.count ≤ effectiveN env s then
          [Event.raiseEnd] else [], ?_, ?_, ?_⟩
      · simp [runOp, stop_signal_eq, h]
      · split <;> simp
      · simp [runOp, stop_signal_eq]

/-- C3: over any sequence of start/stop calls from process start, the
handler installation is performed exactly once (zero times when no call is
made), and every raised signal event is preceded in the trace by the
installation event. -/
theorem C3_install_once_before_raises (ops : List Op) :
    ((run ops initState).2.count Event.installHandlers =
      if ops = [] then 0 else 1) ∧
    (∀ (i : Nat) (e : Event), ((run ops initState).2)[i]? = some e →
      (e = Event.raiseBegin ∨ e = Event.raiseEnd) →
      ∃ j, j < i ∧
        ((run ops initState).2)[j]? = some Event.installHandlers) := by
  cases ops with
  | nil =>
      refine ⟨rfl, ?_⟩
      intro i e hi he
      simp [run] at hi
  | cons op rest =>
      rw [run_cons]
      obtain ⟨t, ht, htn, hins⟩ := runOp_head_install op initState rfl
      obtain ⟨hrn, _⟩ := no_install_of_installed rest (runOp op initState).1 hins
      rw [ht]
      constructor
      · rw [if_neg (by simp)]
        rw [List.cons_append, List.count_cons, List.count_append,
          List.count_eq_zero.mpr htn, List.count_eq_zero.mpr hrn]
        simp
      · intro i e hi he
        cases i with
        | zero =>
            rw [List.cons_append, List.getElem?_cons_zero] at hi
            rcases he with he | he <;> rw [he] at hi <;> simp at hi
        | succ k =>
            refine ⟨0, Nat.succ_pos _, ?_⟩
            rw [List.cons_append, List.getElem?_cons_zero]

/-- Closed instance of `C3_install_once_before_raises`: one start then one
stop yield exactly one installation, and the begin raise at index 1 is
preceded by the installation at index 0. -/
theorem C3_install_once_before_raises_witness :
    ((run [Op.start none, Op.stop none] initState).2.count
      Event.installHandlers = 1) ∧
    ∃ j, j < 1 ∧
      ((run [Op.start none, Op.stop none] initState).2)[j]? =
        some Event.installHandlers := by
  have h := C3_install_once_before_raises [Op.start none, Op.stop none]
  exact ⟨by simpa using h.1,
    h.2 1 Event.raiseBegin (by decide) (Or.inl rfl)⟩

/-! ### C6 -/

/-- Normal form of the fallible `start_signal`: a panic exactly when the
first `sigaction` of a fresh latch fails or when a due raise fails;
otherwise the plain semantics' result. -/
theorem start_signalE_eq (os : OSBehavior) (env : Option String)
    (s : SigState) :
    start_signalE os env s =
      (if s.handlersInstalled = false ∧ os.sigactionOk = false then
        Except.error ()
      else if s.count < effectiveN env s ∧ os.raiseOk = false then
        Except.error ()
      else Except.ok (signals.start_signal env s)) := by
  obtain ⟨sa, ro⟩ := os
  obtain ⟨hi, it, c⟩ := s
  cases hi <;> cases sa <;> cases ro <;> cases it <;>
    simp [start_signalE, init_signal_handlerE, raiseE, start_signal_eq,
      signals.start_signal, init_signal_handler, getIterations, effectiveN,
      Bind.bind, Except.bind] <;>
    split_ifs <;> simp_all

/-- Normal form of the fallible `stop_signal`. -/
theorem stop_signalE_eq (os : OSBehavior) (env : Option String)
    (s : SigState) :
    stop_signalE os env s =
      (if s.handlersInstalled = false ∧ os.sigactionOk = false then
        Except.error ()
      else if (0 < s.count ∧ s.count ≤ effectiveN env s) ∧
          os.raiseOk = false then
        Except.error ()
      else Except.ok (signals.stop_signal env s)) := by
  obtain ⟨sa, ro⟩ := os
  obtain ⟨hi, it, c⟩ := s
  cases hi <;> cases sa <;> cases ro <;> cases it <;>
    simp [stop_signalE, init_signal_handlerE, raiseE, stop_signal_eq,
      signals.stop_signal, init_signal_handler, getIterations, effectiveN,
      Bind.bind, Except.bind] <;>
    split_ifs <;> simp_all

/-- C6: installation or raise failures are fatal and never absorbed — the
panic (`Except.error`) propagates uncaught out of `start_signal` (when its
due raise fails) and out of `stop_signal` (when its due raise, taken at
`0 < curr ≤ N`, fails); a caller that does get a return value from
`start_signal` sees only 0 or 1; and the all-calls-succeed run is exactly
the plain semantics. -/
theorem C6_failures_fatal :
    (∀ (os : OSBehavior) (env : Option String) (s : SigState) r p,
      start_signalE os env s = Except.ok (r, p) → r = 0 ∨ r = 1) ∧
    (∀ (os : OSBehavior) (env : Option String) (s : SigState),
      os.sigactionOk = false → s.handlersInstalled = false →
      start_signalE os env s = Except.error () ∧
      stop_signalE os env s = Except.error ()) ∧
    (∀ (os : OSBehavior) (env : Option String) (s : SigState),
      os.raiseOk = false → s.count < effectiveN env s →
      start_signalE os env s = Except.error ()) ∧
    (∀ (os : OSBehavior) (env : Option String) (s : SigState),
      os.raiseOk = false → 0 < s.count → s.count ≤ effectiveN env s →
      stop_signalE os env s = Except.error ()) ∧
    (∀ (env : Option String) (s : SigState),
      start_signalE ⟨true, true⟩ env s =
        Except.ok (signals.start_signal env s) ∧
      stop_signalE ⟨true, true⟩ env s =
        Except.ok (signals.stop_signal env s)) := by
  refine ⟨?_, ?_, ?_, ?_, ?_⟩
  · intro os env s r p h
    rw [start_signalE_eq] at h
    split_ifs at h
    have hr : r = (signals.start_signal env s).1 := by
      rcases hok : signals.start_signal env s with ⟨r', p'⟩
      rw [hok] at h
      cases h
      rfl
    rw [hr]
    exact (start_ret_raise env s).1
  · intro os env s h1 h2
    rw [start_signalE_eq, stop_signalE_eq]
    rw [if_pos (And.intro h2 h1), if_pos (And.intro h2 h1)]
    exact ⟨rfl, rfl⟩
  · intro os env s h1 h2
    rw [start_signalE_eq]
    by_cases hI : s.handlersInstalled = false ∧ os.sigactionOk = false
    · rw [if_pos hI]
    · rw [if_neg hI, if_pos (And.intro h2 h1)]
  · intro os env s h1 h2 h3
    rw [stop_signalE_eq]
    by_cases hI : s.handlersInstalled = false ∧ os.sigactionOk = false
    · rw [if_pos hI]
    · rw [if_neg hI, if_pos (And.intro (And.intro h2 h3) h1)]
  · intro env s
    rw [start_signalE_eq, stop_signalE_eq]
    constructor
    · rw [if_neg (by simp), if_neg (by simp)]
    · rw [if_neg (by simp), if_neg (by simp)]

/-- Closed instance of `C6_failures_fatal`: a failing `sigaction` at first
use panics both `start_signal` and `stop_signal`; a failing raise panics
`start_signal` within budget and panics `stop_signal` at `0 < curr ≤ N`;
with a healthy OS the call gives the plain semantics' result. -/
theorem C6_failures_fatal_witness :
    start_signalE ⟨false, true⟩ none initState = Except.error () ∧
    stop_signalE ⟨false, true⟩ none initState = Except.error () ∧
    start_signalE ⟨true, false⟩ none initState = Except.error () ∧
    stop_signalE ⟨true, false⟩ none ⟨true, some 1, 1⟩ = Except.error () ∧
    start_signalE ⟨true, true⟩ none initState =
      Except.ok (signals.start_signal none initState) := by
  refine ⟨(C6_failures_fatal.2.1 ⟨false, true⟩ none initState rfl rfl).1,
    (C6_failures_fatal.2.1 ⟨false, true⟩ none initState rfl rfl).2,
    C6_failures_fatal.2.2.1 ⟨true, false⟩ none initState rfl (by decide),
    C6_failures_fatal.2.2.2.1 ⟨true, false⟩ none ⟨true, some 1, 1⟩ rfl
      (by decide) (by decide),
    (C6_failures_fatal.2.2.2.2 none initState).1⟩

/-! ### C8 -/

/-- C8: the C entry points and the JNI bridge methods are pure
pass-throughs — for every state and environment they produce exactly the
result, state, and events of the core `signals` functions. -/
theorem C8_bridges_pass_through (env : Option String) (s : SigState) :
    start_signal env s = signals.start_signal env s ∧
    stop_signal env s = signals.stop_signal env s ∧
    jni.Java_EnergySignal_startSignal () () env s =
      signals.start_signal env s ∧
    jni.Java_EnergySignal_stopSignal () () env s =
      signals.stop_signal env s :=
  ⟨rfl, rfl, rfl, rfl⟩

/-! ### C7: counting helpers -/

/-- Updating a point whose predicate value does not change keeps the
count. -/
theorem countP_update_of_eq {α : Type} (l : List Nat) (f : Nat → α)
    (i : Nat) (a : α) (p : α → Bool) (h : p a = p (f i)) :
    l.countP (fun j => p (Function.update f i a j)) =
      l.countP (fun j => p (f j)) := by
  apply List.countP_congr
  intro j _
  by_cases hij : j = i
  · subst hij
    rw [Function.update_same, h]
  · rw [Function.update_noteq hij]

/-- Updating a point from a non-satisfying to a satisfying value raises the
count by one. -/
theorem countP_update_add_one {α : Type} :
    ∀ (l : List Nat), l.Nodup → ∀ (f : Nat → α) (i : Nat) (a : α)
      (p : α → Bool), i ∈ l → p (f i) = false → p a = true →
      l.countP (fun j => p (Function.update f i a j)) =
        l.countP (fun j => p (f j)) + 1 := by
  intro l
  induction l with
  | nil =>
      intro _ f i a p hi
      cases hi
  | cons x xs ih =>
      intro hnd f i a p hi hold hnew
      rw [List.countP_cons, List.countP_cons]
      rcases List.mem_cons.mp hi with hx | hx
      · subst hx
        have hnx : i ∉ xs := (List.nodup_cons.mp hnd).1
        have hxs : xs.countP (fun j => p (Function.update f i a j)) =
            xs.countP (fun j => p (f j)) := by
          apply List.countP_congr
          intro j hj
          have hne : j ≠ i := by
            intro hji
            subst hji
            exact hnx hj
          rw [Function.update_noteq hne]
        rw [hxs, Function.update_same, hold, hnew]
        simp
      · have hx_ne : x ≠ i := by
          intro hxi
          exact (List.nodup_cons.mp hnd).1 (hxi ▸ hx)
        rw [ih (List.nodup_cons.mp hnd).2 f i a p hx hold hnew,
          Function.update_noteq hx_ne]
        omega

/-- Among `0, …, T-1` exactly `min T N` values are below `N`. -/
theorem countP_range_lt (N : Nat) : ∀ T : Nat,
    (List.range T).countP (fun i => decide (i < N)) = min T N := by
  intro T
  induction T with
  | zero => simp
  | succ T ih =>
      rw [List.range_succ, List.countP_append, ih]
      simp only [List.countP_cons, List.countP_nil]
      by_cases h : T < N <;> simp [h] <;> omega

/-- A map on `0, …, T-1` that is injective with values below `T` permutes
`0, …, T-1`. -/
theorem map_range_perm (T : Nat) (g : Nat → Nat)
    (hb : ∀ i, i < T → g i < T)
    (hinj : ∀ i j, i < T → j < T → i ≠ j → g i ≠ g j) :
    ((List.range T).map g).Perm (List.range T) := by
  have hnd : ((List.range T).map g).Nodup := by
    apply List.Nodup.map_on _ (List.nodup_range T)
    intro x hx y hy hgxy
    by_contra hxy
    exact hinj x y (List.mem_range.mp hx) (List.mem_range.mp hy) hxy hgxy
  apply List.perm_of_nodup_nodup_toFinset_eq hnd (List.nodup_range T)
  apply Finset.eq_of_subset_of_card_le
  · intro x hx
    rw [List.mem_toFinset] at hx ⊢
    obtain ⟨i, hi, rfl⟩ := List.mem_map.mp hx
    exact List.mem_range.mpr (hb i (List.mem_range.mp hi))
  · rw [List.toFinset_card_of_nodup hnd,
      List.toFinset_card_of_nodup (List.nodup_range T), List.length_map]

/-- The invariant holds at process start. -/
theorem CInv_init (env : Option String) (T : Nat) : CInv env T mkCState := by
  have hz : fetchedCount mkCState T = 0 := by
    unfold fetchedCount
    rw [List.countP_eq_zero]
    intro a _
    simp [mkCState]
  have hz2 : raisersCount mkCState T (iterationsOf env) = 0 := by
    unfold raisersCount
    rw [List.countP_eq_zero]
    intro a _
    simp [mkCState]
  refine ⟨?_, ?_, ?_, ?_, ?_, ?_, ?_, ?_, ?_, ?_⟩
  · show initState.count = fetchedCount mkCState T
    rw [hz]
    rfl
  · intro i _ h
    simp [mkCState] at h
  · intro i j _ _ _ h
    simp [mkCState] at h
  · exact Or.inl rfl
  · show List.count Event.raiseBegin ([] : List Event) =
      raisersCount mkCState T (iterationsOf env)
    rw [hz2]
    rfl
  · intro i _
    show (0 : Nat) ≤ 3
    omega
  · intro i _ h
    simp [mkCState] at h
  · intro _
    rfl
  · exact Or.inl rfl
  · rfl

/-- Field view of one `init_signal_handler` call. -/
theorem init_signal_handler_fields (s : SigState) :
    (init_signal_handler s).1.handlersInstalled = true ∧
    (init_signal_handler s).1.iterations = s.iterations ∧
    (init_signal_handler s).1.count = s.count ∧
    (init_signal_handler s).2.count Event.raiseBegin = 0 ∧
    (s.handlersInstalled = true → (init_signal_handler s).2 = []) ∧
    (s.handlersInstalled = false →
      (init_signal_handler s).2 = [Event.installHandlers]) := by
  unfold init_signal_handler
  cases h : s.handlersInstalled <;> simp [h]

/-- Field view of a `Lazy` force whose cache is empty or already holds the
initializer's value. -/
theorem getIterations_fields (env : Option String) (s : SigState)
    (h : s.iterations = none ∨ s.iterations = some (iterationsOf env)) :
    (getIterations env s).1 = iterationsOf env ∧
    (getIterations env s).2 =
      { s with iterations := some (iterationsOf env) } := by
  obtain ⟨hi, it, c⟩ := s
  rcases h with h | h <;> simp only at h <;> subst h <;>
    simp [getIterations]

/-- `threadStep` preserves the invariant: the `Once`-entry step. -/
theorem CInv_step0 (env : Option String) (T : Nat) (st : CState) (i : Nat)
    (hi : i < T) (h : CInv env T st) (hpc : (st.threads i).pc = 0) :
    CInv env T (threadStep env st i) := by
  obtain ⟨h1, h2, h3, h4, h5, h6, h7, h8, h9, h10⟩ := h
  obtain ⟨f1, f2, f3, f4, f5, f6⟩ := init_signal_handler_fields st.shared
  have hsh : (threadStep env st i).shared =
      (init_signal_handler st.shared).1 := by
    simp [threadStep, hpc]
  have hth : (threadStep env st i).threads =
      Function.update st.threads i
        ⟨1, (st.threads i).curr, (st.threads i).ret⟩ := by
    simp [threadStep, hpc]
  have hev : (threadStep env st i).events =
      st.events ++ (init_signal_handler st.shared).2 := by
    simp [threadStep, hpc]
  have hfe : fetchedCount (threadStep env st i) T = fetchedCount st T := by
    unfold fetchedCount
    rw [hth]
    exact countP_update_of_eq (List.range T) st.threads i _
      (fun tl => decide (2 ≤ tl.pc)) (by simp [hpc])
  have hra : raisersCount (threadStep env st i) T (iterationsOf env) =
      raisersCount st T (iterationsOf env) := by
    unfold raisersCount
    rw [hth]
    exact countP_update_of_eq (List.range T) st.threads i _
      (fun tl => decide (tl.pc = 3 ∧ tl.curr < iterationsOf env))
      (by simp [hpc])
  refine ⟨?_, ?_, ?_, ?_, ?_, ?_, ?_, ?_, ?_, ?_⟩
  · rw [hfe, hsh, f3, h1]
  · intro j hj hj2
    rw [hth] at hj2 ⊢
    rw [hfe]
    by_cases hji : j = i
    · subst hji
      rw [Function.update_same] at hj2
      simp at hj2
    · rw [Function.update_noteq hji] at hj2 ⊢
      exact h2 j hj hj2
  · intro j l hj hl hjl hj2 hl2
    rw [hth] at hj2 hl2 ⊢
    by_cases hji : j = i
    · subst hji
      rw [Function.update_same] at hj2
      simp at hj2
    · by_cases hli : l = i
      · subst hli
        rw [Function.update_same] at hl2
        simp at hl2
      · rw [Function.update_noteq hji] at hj2 ⊢
        rw [Function.update_noteq hli] at hl2 ⊢
        exact h3 j l hj hl hjl hj2 hl2
  · rw [hsh, f2]
    exact h4
  · rw [hev, hra, List.count_append, f4, Nat.add_zero]
    exact h5
  · intro j hj
    rw [hth]
    by_cases hji : j = i
    · subst hji
      rw [Function.update_same]
      simp
    · rw [Function.update_noteq hji]
      exact h6 j hj
  · intro j hj _
    rw [hsh]
    exact f1
  · intro hcontra
    rw [hsh, f1] at hcontra
    cases hcontra
  · rw [hev]
    cases hV : st.shared.handlersInstalled
    · rw [f6 hV, h8 hV]
      exact Or.inr rfl
    · rw [f5 hV, List.append_nil]
      exact h9
  · rw [hev, hsh, f1, if_pos rfl, List.count_append]
    cases hV : st.shared.handlersInstalled
    · rw [f6 hV, h8 hV]
      rfl
    · rw [f5 hV]
      rw [hV] at h10
      simp only [if_pos rfl] at h10
      simp [h10]

/-- `threadStep` preserves the invariant: the `fetch_add` step. -/
theorem CInv_step1 (env : Option String) (T : Nat) (hT : T < USIZE_MOD)
    (st : CState) (i : Nat) (hi : i < T) (h : CInv env T st)
    (hpc : (st.threads i).pc = 1) : CInv env T (threadStep env st i) := by
  obtain ⟨h1, h2, h3, h4, h5, h6, h7, h8, h9, h10⟩ := h
  have hInst : st.shared.handlersInstalled = true := h7 i hi (by omega)
  have hsh : (threadStep env st i).shared =
      ⟨st.shared.handlersInstalled, st.shared.iterations,
        (st.shared.count + 1) % USIZE_MOD⟩ := by
    simp [threadStep, hpc]
  have hth : (threadStep env st i).threads =
      Function.update st.threads i
        ⟨2, st.shared.count, (st.threads i).ret⟩ := by
    simp [threadStep, hpc]
  have hev : (threadStep env st i).events = st.events := by
    simp [threadStep, hpc]
  have hfe : fetchedCount (threadStep env st i) T =
      fetchedCount st T + 1 := by
    unfold fetchedCount
    rw [hth]
    exact countP_update_add_one (List.range T) (List.nodup_range T)
      st.threads i _ (fun tl => decide (2 ≤ tl.pc)) (List.mem_range.mpr hi)
      (by simp [hpc]) (by simp)
  have hfle : fetchedCount st T + 1 ≤ T := by
    have hb := List.countP_le_length
      (p := fun j => decide (2 ≤ (((threadStep env st i).threads) j).pc))
      (l := List.range T)
    rw [List.length_range] at hb
    have : fetchedCount (threadStep env st i) T ≤ T := hb
    rw [hfe] at this
    exact this
  have hra : raisersCount (threadStep env st i) T (iterationsOf env) =
      raisersCount st T (iterationsOf env) := by
    unfold raisersCount
    rw [hth]
    exact countP_update_of_eq (List.range T) st.threads i _
      (fun tl => decide (tl.pc = 3 ∧ tl.curr < iterationsOf env))
      (by simp [hpc])
  refine ⟨?_, ?_, ?_, ?_, ?_, ?_, ?_, ?_, ?_, ?_⟩
  · rw [hfe, hsh]
    show (st.shared.count + 1) % USIZE_MOD = fetchedCount st T + 1
    rw [h1, Nat.mod_eq_of_lt (by omega)]
  · intro j hj hj2
    rw [hth] at hj2 ⊢
    rw [hfe]
    by_cases hji : j = i
    · subst hji
      rw [Function.update_same]
      show st.shared.count < fetchedCount st T + 1
      rw [h1]
      omega
    · rw [Function.update_noteq hji] at hj2 ⊢
      have := h2 j hj hj2
      omega
  · intro j l hj hl hjl hj2 hl2
    rw [hth] at hj2 hl2 ⊢
    by_cases hji : j = i
    · subst hji
      by_cases hli : l = j
      · exact absurd hli.symm hjl
      · rw [Function.update_same]
        rw [Function.update_noteq hli] at hl2 ⊢
        have := h2 l hl hl2
        show st.shared.count ≠ (st.threads l).curr
        rw [h1]
        omega
    · by_cases hli : l = i
      · subst hli
        rw [Function.update_same]
        rw [Function.update_noteq hji] at hj2 ⊢
        have := h2 j hj hj2
        show (st.threads j).curr ≠ st.shared.count
        rw [h1]
        omega
      · rw [Function.update_noteq hji] at hj2 ⊢
        rw [Function.update_noteq hli] at hl2 ⊢
        exact h3 j l hj hl hjl hj2 hl2
  · rw [hsh]
    exact h4
  · rw [hev, hra]
    exact h5
  · intro j hj
    rw [hth]
    by_cases hji : j = i
    · subst hji
      rw [Function.update_same]
      simp
    · rw [Function.update_noteq hji]
      exact h6 j hj
  · intro j hj _
    rw [hsh]
    exact hInst
  · intro hcontra
    have hc2 : st.shared.handlersInstalled = false := by
      rw [hsh] at hcontra
      exact hcontra
    rw [hInst] at hc2
    simp at hc2
  · rw [hev]
    exact h9
  · rw [hev, hsh]
    exact h10

/-- `threadStep` preserves the invariant: the budget force, comparison and
raise step. -/
theorem CInv_step2 (env : Option String) (T : Nat) (st : CState) (i : Nat)
    (hi : i < T) (h : CInv env T st) (hpc : (st.threads i).pc = 2) :
    CInv env T (threadStep env st i) := by
  obtain ⟨h1, h2, h3, h4, h5, h6, h7, h8, h9, h10⟩ := h
  obtain ⟨g1, g2⟩ := getIterations_fields env st.shared h4
  have hInst : st.shared.handlersInstalled = true := h7 i hi (by omega)
  have hene : st.events ≠ [] := by
    intro hnil
    rw [hInst] at h10
    rw [hnil] at h10
    simp at h10
  have hhead : st.events.head? = some Event.installHandlers := by
    rcases h9 with h9 | h9
    · exact absurd h9 hene
    · exact h9
  have h10' : st.events.count Event.installHandlers = 1 := by
    rw [hInst] at h10
    simpa using h10
  by_cases hcur : (st.threads i).curr < iterationsOf env
  · -- raise branch
    have hsh : (threadStep env st i).shared =
        ⟨st.shared.handlersInstalled, some (iterationsOf env),
          st.shared.count⟩ := by
      simp only [threadStep, hpc, g1, g2]
      rw [if_pos hcur]
    have hth : (threadStep env st i).threads =
        Function.update st.threads i
          ⟨3, (st.threads i).curr, 1⟩ := by
      simp only [threadStep, hpc, g1, g2]
      rw [if_pos hcur]
    have hev : (threadStep env st i).events =
        st.events ++ [Event.raiseBegin] := by
      simp only [threadStep, hpc, g1, g2]
      rw [if_pos hcur]
    have hfe : fetchedCount (threadStep env st i) T = fetchedCount st T := by
      unfold fetchedCount
      rw [hth]
      exact countP_update_of_eq (List.range T) st.threads i _
        (fun tl => decide (2 ≤ tl.pc)) (by simp [hpc])
    have hra : raisersCount (threadStep env st i) T (iterationsOf env) =
        raisersCount st T (iterationsOf env) + 1 := by
      unfold raisersCount
      rw [hth]
      exact countP_update_add_one (List.range T) (List.nodup_range T)
        st.threads i _
        (fun tl => decide (tl.pc = 3 ∧ tl.curr < iterationsOf env))
        (List.mem_range.mpr hi) (by simp [hpc]) (by simp [hcur])
    refine ⟨?_, ?_, ?_, ?_, ?_, ?_, ?_, ?_, ?_, ?_⟩
    · rw [hfe, hsh]
      exact h1
    · intro j hj hj2
      rw [hth] at hj2 ⊢
      rw [hfe]
      by_cases hji : j = i
      · subst hji
        rw [Function.update_same]
        exact h2 j hj (by rw [hpc])
      · rw [Function.update_noteq hji] at hj2 ⊢
        exact h2 j hj hj2
    · intro j l hj hl hjl hj2 hl2
      rw [hth] at hj2 hl2 ⊢
      by_cases hji : j = i
      · subst hji
        by_cases hli : l = j
        · exact absurd hli.symm hjl
        · rw [Function.update_same]
          rw [Function.update_noteq hli] at hl2 ⊢
          exact h3 j l hj hl hjl (by rw [hpc]) hl2
      · by_cases hli : l = i
        · subst hli
          rw [Function.update_same]
          rw [Function.update_noteq hji] at hj2 ⊢
          exact h3 j l hj hl hjl hj2 (by rw [hpc])
        · rw [Function.update_noteq hji] at hj2 ⊢
          rw [Function.update_noteq hli] at hl2 ⊢
          exact h3 j l hj hl hjl hj2 hl2
    · rw [hsh]
      exact Or.inr rfl
    · rw [hev, hra, List.count_append, h5]
      rfl
    · intro j hj
      rw [hth]
      by_cases hji : j = i
      · subst hji
        rw [Function.update_same]
      · rw [Function.update_noteq hji]
        exact h6 j hj
    · intro j hj _
      rw [hsh]
      exact hInst
    · intro hcontra
      have hc2 : st.shared.handlersInstalled = false := by
        rw [hsh] at hcontra
        exact hcontra
      rw [hInst] at hc2
      simp at hc2
    · rw [hev]
      right
      rcases hE : st.events with _ | ⟨e, es⟩
      · exact absurd hE hene
      · rw [hE] at hhead
        rw [List.cons_append, List.head?_cons]
        simpa using hhead
    · rw [hev, List.count_append]
      have hsT : (threadStep env st i).shared.handlersInstalled = true := by
        rw [hsh]
        exact hInst
      rw [hsT, if_pos rfl, h10']
      rfl
  · -- suppressed branch
    have hsh : (threadStep env st i).shared =
        ⟨st.shared.handlersInstalled, some (iterationsOf env),
          st.shared.count⟩ := by
      simp only [threadStep, hpc, g1, g2]
      rw [if_neg hcur]
    have hth : (threadStep env st i).threads =
        Function.update st.threads i
          ⟨3, (st.threads i).curr, 0⟩ := by
      simp only [threadStep, hpc, g1, g2]
      rw [if_neg hcur]
    have hev : (threadStep env st i).events = st.events := by
      simp only [threadStep, hpc, g1, g2]
      rw [if_neg hcur]
    have hfe : fetchedCount (threadStep env st i) T = fetchedCount st T := by
      unfold fetchedCount
      rw [hth]
      exact countP_update_of_eq (List.range T) st.threads i _
        (fun tl => decide (2 ≤ tl.pc)) (by simp [hpc])
    have hra : raisersCount (threadStep env st i) T (iterationsOf env) =
        raisersCount st T (iterationsOf env) := by
      unfold raisersCount
      rw [hth]
      exact countP_update_of_eq (List.range T) st.threads i _
        (fun tl => decide (tl.pc = 3 ∧ tl.curr < iterationsOf env))
        (by simp [hpc, hcur])
    refine ⟨?_, ?_, ?_, ?_, ?_, ?_, ?_, ?_, ?_, ?_⟩
    · rw [hfe, hsh]
      exact h1
    · intro j hj hj2
      rw [hth] at hj2 ⊢
      rw [hfe]
      by_cases hji : j = i
      · subst hji
        rw [Function.update_same]
        exact h2 j hj (by rw [hpc])
      · rw [Function.update_noteq hji] at hj2 ⊢
        exact h2 j hj hj2
    · intro j l hj hl hjl hj2 hl2
      rw [hth] at hj2 hl2 ⊢
      by_cases hji : j = i
      · subst hji
        by_cases hli : l = j
        · exact absurd hli.symm hjl
        · rw [Function.update_same]
          rw [Function.update_noteq hli] at hl2 ⊢
          exact h3 j l hj hl hjl (by rw [hpc]) hl2
      · by_cases hli : l = i
        · subst hli
          rw [Function.update_same]
          rw [Function.update_noteq hji] at hj2 ⊢
          exact h3 j l hj hl hjl hj2 (by rw [hpc])
        · rw [Function.update_noteq hji] at hj2 ⊢
          rw [Function.update_noteq hli] at hl2 ⊢
          exact h3 j l hj hl hjl hj2 hl2
    · rw [hsh]
      exact Or.inr rfl
    · rw [hev, hra]
      exact h5
    · intro j hj
      rw [hth]
      by_cases hji : j = i
      · subst hji
        rw [Function.update_same]
      · rw [Function.update_noteq hji]
        exact h6 j hj
    · intro j hj _
      rw [hsh]
      exact hInst
    · intro hcontra
      have hc2 : st.shared.handlersInstalled = false := by
        rw [hsh] at hcontra
        exact hcontra
      rw [hInst] at hc2
      simp at hc2
    · rw [hev]
      exact h9
    · rw [hev]
      have hsT : (threadStep env st i).shared.handlersInstalled = true := by
        rw [hsh]
        exact hInst
      rw [hsT, if_pos rfl, h10']

/-- A returned thread's step does nothing. -/
theorem CInv_step3 (env : Option String) (T : Nat) (st : CState) (i : Nat)
    (h : CInv env T st) (n : Nat) (hpc : (st.threads i).pc = n + 3) :
    CInv env T (threadStep env st i) := by
  have hstep : threadStep env st i = st := by
    simp [threadStep, hpc]
  rw [hstep]
  exact h

/-- `threadStep` preserves the invariant. -/
theorem CInv_step (env : Option String) (T : Nat) (hT : T < USIZE_MOD)
    (st : CState) (i : Nat) (hi : i < T) (h : CInv env T st) :
    CInv env T (threadStep env st i) := by
  rcases hpc : (st.threads i).pc with _ | _ | _ | n
  · exact CInv_step0 env T st i hi h hpc
  · exact CInv_step1 env T hT st i hi h hpc
  · exact CInv_step2 env T st i hi h hpc
  · exact CInv_step3 env T st i h n hpc

/-- The invariant holds after any schedule over threads `0, …, T-1`. -/
theorem CInv_crun (env : Option String) (T : Nat) (hT : T < USIZE_MOD) :
    ∀ (sched : List Nat) (st : CState), (∀ j ∈ sched, j < T) →
      CInv env T st → CInv env T (crun env sched st) := by
  intro sched
  induction sched with
  | nil =>
      intro st _ h
      exact h
  | cons x rest ih =>
      intro st hs h
      have hstep : crun env (x :: rest) st =
          crun env rest (threadStep env st x) := rfl
      rw [hstep]
      exact ih (threadStep env st x)
        (fun j hj => hs j (List.mem_cons_of_mem x hj))
        (CInv_step env T hT st x (hs x (List.mem_cons_self x rest)) h)

/-! ### C7 -/

/-- C7 (amended: with T below the wrap bound 2^64 that the 64-bit counter
forces): if T threads each call `start_signal` exactly once — any
interleaving of their atomic steps that runs every thread to completion —
then exactly `min T N` begin signals are raised in total, the final counter
equals T, and no two threads observe the same pre-increment value: the
atomic fetch-add linearizes the calls into a total order of unique
slots. -/
theorem C7_concurrent_starts (env : Option String) (T : Nat)
    (sched : List Nat) (hT : T < USIZE_MOD)
    (hs : ∀ j ∈ sched, j < T)
    (hdone : ∀ i, i < T → ((crun env sched mkCState).threads i).pc = 3) :
    (crun env sched mkCState).shared.count = T ∧
    (crun env sched mkCState).events.count Event.raiseBegin =
      min T (iterationsOf env) ∧
    (∀ i j, i < T → j < T → i ≠ j →
      ((crun env sched mkCState).threads i).curr ≠
        ((crun env sched mkCState).threads j).curr) := by
  obtain ⟨h1, h2, h3, h4, h5, h6, h7, h8, h9, h10⟩ :=
    CInv_crun env T hT sched mkCState hs (CInv_init env T)
  have hfetch : fetchedCount (crun env sched mkCState) T = T := by
    have hall : ∀ a ∈ List.range T,
        decide (2 ≤ ((crun env sched mkCState).threads a).pc) = true := by
      intro a ha
      rw [hdone a (List.mem_range.mp ha)]
      rfl
    calc fetchedCount (crun env sched mkCState) T
        = (List.range T).length := List.countP_eq_length.mpr hall
      _ = T := List.length_range T
  have hgb : ∀ i, i < T →
      ((crun env sched mkCState).threads i).curr < T := by
    intro i hi2
    have hb := h2 i hi2 (by rw [hdone i hi2]; omega)
    rwa [hfetch] at hb
  have hginj : ∀ i j, i < T → j < T → i ≠ j →
      ((crun env sched mkCState).threads i).curr ≠
        ((crun env sched mkCState).threads j).curr := by
    intro i j hi2 hj2 hij
    exact h3 i j hi2 hj2 hij (by rw [hdone i hi2]; omega)
      (by rw [hdone j hj2]; omega)
  refine ⟨?_, ?_, hginj⟩
  · rw [h1, hfetch]
  · rw [h5]
    unfold raisersCount
    have hconv : (List.range T).countP
        (fun i => decide (((crun env sched mkCState).threads i).pc = 3 ∧
          ((crun env sched mkCState).threads i).curr < iterationsOf env)) =
        (List.range T).countP
          (fun i => decide (((crun env sched mkCState).threads i).curr <
            iterationsOf env)) := by
      apply List.countP_congr
      intro a ha
      rw [hdone a (List.mem_range.mp ha)]
      simp
    rw [hconv]
    have hmap := map_range_perm T
      (fun i => ((crun env sched mkCState).threads i).curr) hgb hginj
    show (List.range T).countP
      ((fun x => decide (x < iterationsOf env)) ∘
        (fun i => ((crun env sched mkCState).threads i).curr)) =
      min T (iterationsOf env)
    rw [← List.countP_map, hmap.countP_eq, countP_range_lt]

/-- Closed instance of `C7_concurrent_starts`: three threads, budget 2,
steps genuinely interleaved: two begin signals, counter 3, distinct
slots. -/
theorem C7_concurrent_starts_witness :
    (crun (some "2") [0, 1, 2, 0, 1, 2, 0, 1, 2] mkCState).shared.count = 3 ∧
    (crun (some "2") [0, 1, 2, 0, 1, 2, 0, 1, 2] mkCState).events.count
      Event.raiseBegin = min 3 (iterationsOf (some "2")) ∧
    (∀ i j, i < 3 → j < 3 → i ≠ j →
      ((crun (some "2") [0, 1, 2, 0, 1, 2, 0, 1, 2] mkCState).threads i).curr ≠
        ((crun (some "2") [0, 1, 2, 0, 1, 2, 0, 1, 2] mkCState).threads
          j).curr) :=
  C7_concurrent_starts (some "2") 3 [0, 1, 2, 0, 1, 2, 0, 1, 2]
    (by norm_num [USIZE_MOD]) (by decide) (by decide)

/-- A step of thread `x` leaves every other thread's local state alone. -/
theorem threadStep_other (env : Option String) (st : CState) (x i : Nat)
    (h : i ≠ x) : (threadStep env st x).threads i = st.threads i := by
  rcases hpc : (st.threads x).pc with _ | _ | _ | n
  · simp [threadStep, hpc, Function.update_noteq h]
  · simp [threadStep, hpc, Function.update_noteq h]
  · simp only [threadStep, hpc]
    split <;> simp [Function.update_noteq h]
  · simp [threadStep, hpc]

/-- Threads not scheduled are never touched. -/
theorem crun_untouched (env : Option String) : ∀ (sched : List Nat)
    (st : CState) (i : Nat), i ∉ sched →
    (crun env sched st).threads i = st.threads i := by
  intro sched
  induction sched with
  | nil => intro st i _; rfl
  | cons x rest ih =>
      intro st i hi
      have hix : i ≠ x := fun hh => hi (hh ▸ List.mem_cons_self x rest)
      have h1 : crun env (x :: rest) st =
          crun env rest (threadStep env st x) := rfl
      rw [h1, ih _ i (fun hh => hi (List.mem_cons_of_mem x hh))]
      exact threadStep_other env st x i hix

/-- Schedules compose by concatenation. -/
theorem crun_append (env : Option String) (l1 l2 : List Nat) (st : CState) :
    crun env (l1 ++ l2) st = crun env l2 (crun env l1 st) :=
  List.foldl_append _ _ l1 l2

/-- Running a fresh thread's three steps back to back is exactly one
sequential `start_signal` call on the shared state. -/
theorem crun_triple (env : Option String) (st : CState) (x : Nat)
    (hpc : (st.threads x).pc = 0) :
    crun env [x, x, x] st =
      ⟨(signals.start_signal env st.shared).2.1,
       Function.update st.threads x
         ⟨3, st.shared.count, (signals.start_signal env st.shared).1⟩,
       st.events ++ (signals.start_signal env st.shared).2.2⟩ := by
  obtain ⟨sh, th, ev⟩ := st
  simp only at hpc
  obtain ⟨b, it, c⟩ := sh
  rw [start_signal_eq]
  cases b <;> cases it <;>
    simp [crun, threadStep, hpc, Function.update_same, Function.update_idem,
      init_signal_handler, getIterations, effectiveN] <;>
    split <;>
    simp [Function.update_idem]

/-- The sequential schedule: same shared state as `T` sequential start
calls, all `T` threads completed, the rest untouched. -/
theorem crun_seqSched (env : Option String) : ∀ T : Nat,
    (crun env (seqSched T) mkCState).shared =
      (run (starts env T) initState).1 ∧
    (∀ i, i < T → ((crun env (seqSched T) mkCState).threads i).pc = 3) ∧
    (∀ i, T ≤ i →
      (crun env (seqSched T) mkCState).threads i = ⟨0, 0, 0⟩) := by
  intro T
  induction T with
  | zero =>
      refine ⟨rfl, ?_, ?_⟩
      · intro i hi
        exact absurd hi (Nat.not_lt_zero i)
      · intro i _
        rfl
  | succ T ih =>
      obtain ⟨ih1, ih2, ih3⟩ := ih
      have hsp : seqSched (T + 1) = seqSched T ++ [T, T, T] := rfl
      have hpcT : ((crun env (seqSched T) mkCState).threads T).pc = 0 := by
        rw [ih3 T (Nat.le_refl T)]
      have htrip := crun_triple env (crun env (seqSched T) mkCState) T hpcT
      have hrs : (run (starts env (T + 1)) initState).1 =
          (signals.start_signal env (run (starts env T) initState).1).2.1 := by
        rw [show starts env (T + 1) = starts env T ++ [Op.start env] from
          List.replicate_succ' (T) (Op.start env), run_append]
        rfl
      refine ⟨?_, ?_, ?_⟩
      · rw [hsp, crun_append, htrip, hrs, ih1]
      · intro i hi
        rw [hsp, crun_append, htrip]
        show ((Function.update (crun env (seqSched T) mkCState).threads T
          ⟨3, (crun env (seqSched T) mkCState).shared.count,
            (signals.start_signal env
              (crun env (seqSched T) mkCState).shared).1⟩) i).pc = 3
        by_cases hiT : i = T
        · subst hiT
          rw [Function.update_same]
        · rw [Function.update_noteq hiT]
          exact ih2 i (by omega)
      · intro i hi
        rw [hsp, crun_append, htrip]
        show (Function.update (crun env (seqSched T) mkCState).threads T
          ⟨3, (crun env (seqSched T) mkCState).shared.count,
            (signals.start_signal env
              (crun env (seqSched T) mkCState).shared).1⟩) i = ⟨0, 0, 0⟩
        rw [Function.update_noteq (by omega)]
        exact ih3 i (by omega)

/-- C7 counterexample: 2^64 threads each calling `start_signal` once, run
to completion one after another (a valid schedule), leave the final counter
at 0, not at the thread count 2^64 — the claim fails at the wrap. -/
theorem C7_counterexample :
    (∀ i, i < USIZE_MOD →
      ((crun none (seqSched USIZE_MOD) mkCState).threads i).pc = 3) ∧
    (crun none (seqSched USIZE_MOD) mkCState).shared.count = 0 ∧
    (crun none (seqSched USIZE_MOD) mkCState).shared.count ≠ USIZE_MOD := by
  obtain ⟨hsh, hpcs, _⟩ := crun_seqSched none USIZE_MOD
  have hcnt : (crun none (seqSched USIZE_MOD) mkCState).shared.count = 0 := by
    rw [hsh, run_starts_count none _ _ initState_count_lt]
    show (0 + USIZE_MOD) % USIZE_MOD = 0
    rw [Nat.zero_add, Nat.mod_self]
  refine ⟨hpcs, hcnt, ?_⟩
  rw [hcnt]
  norm_num [USIZE_MOD]

end EnergyBench